import Mathlib

set_option linter.unusedVariables false

namespace OpenScribe

/-!
Shallow embedding of the OpenScribe audio pipeline core
(src/packages/pipeline/audio-ingest/src/capture/audio-processing.ts).
Float32Array sample values are modelled as rationals; the arrays themselves as
lists.  All state-carrying classes become structures with explicit state
passing.
-/

/-- One run of the `SampleBuffer` chunk list: `{ data: Float32Array; offset: number }`. -/
structure Chunk where
  data : List ℚ
  offset : Nat
deriving DecidableEq

/-- The unconsumed samples of a run (`data` from `offset` on). -/
def Chunk.toList (c : Chunk) : List ℚ := c.data.drop c.offset

/-- The unconsumed sample count of a run, `data.length - offset`. -/
def Chunk.remaining (c : Chunk) : Nat := c.data.length - c.offset

/-- State of a `SampleBuffer`: the run list plus the cached `totalLength` counter. -/
structure SampleBuffer where
  chunks : List Chunk
  totalLength : Nat
deriving DecidableEq

/-- Concatenation of the unconsumed samples of a run list, front run first. -/
def chunksJoin (cs : List Chunk) : List ℚ := cs.foldr (fun c acc => c.toList ++ acc) []

/-- All unconsumed samples currently held by the buffer, in order. -/
def SampleBuffer.toList (b : SampleBuffer) : List ℚ := chunksJoin b.chunks

/-- A freshly constructed `SampleBuffer`. -/
def SampleBuffer.empty : SampleBuffer := ⟨[], 0⟩

/-- The accumulator invariant of the spec: the cached `totalLength` equals the
sum over runs of `data.length - offset`. -/
def SampleBuffer.WF (b : SampleBuffer) : Prop :=
  b.totalLength = (b.chunks.map Chunk.remaining).sum

instance (b : SampleBuffer) : Decidable b.WF :=
  decidable_of_iff (b.totalLength = (b.chunks.map Chunk.remaining).sum) Iff.rfl

/-- `push(data)`: appends a fresh run at the back unless `data` is empty. -/
def SampleBuffer.push (b : SampleBuffer) (data : List ℚ) : SampleBuffer :=
  if data.length = 0 then b
  else { chunks := b.chunks ++ [{ data := data, offset := 0 }],
         totalLength := b.totalLength + data.length }

/-- `prepend(data)`: unshifts a fresh run at the front unless `data` is empty. -/
def SampleBuffer.prepend (b : SampleBuffer) (data : List ℚ) : SampleBuffer :=
  if data.length = 0 then b
  else { chunks := { data := data, offset := 0 } :: b.chunks,
         totalLength := b.totalLength + data.length }

/-- The copy loop of `consume`: collects up to `need` samples from the front
runs, advancing each run's `offset` and shifting runs that become exhausted
(or are already empty).  Each iteration of the source's `while` loop either
lowers the outstanding need or drops a run, so `need + cs.length` bounds the
iteration count; the loop is written with that explicit structural fuel (first
argument) and the wrapper passes exactly that bound, so the fuel-exhausted
case is unreachable from `consume`. -/
def consumeGo : Nat → Nat → List Chunk → List ℚ × List Chunk
  | _, 0, cs => ([], cs)
  | 0, _ + 1, cs => ([], cs)
  | _ + 1, _ + 1, [] => ([], [])
  | fuel + 1, need + 1, c :: rest =>
    let available := c.data.length - c.offset
    let toCopy := min available (need + 1)
    if 0 < toCopy then
      let copied := (c.data.drop c.offset).take toCopy
      let newOffset := c.offset + toCopy
      let rest' := if c.data.length ≤ newOffset then rest
                   else { data := c.data, offset := newOffset } :: rest
      let out := consumeGo fuel (need + 1 - toCopy) rest'
      (copied ++ out.1, out.2)
    else
      consumeGo fuel (need + 1) rest

/-- `consume(count)` past its guard: run the copy loop, zero-fill the tail of
the preallocated result if the runs ran short, and do `totalLength -= count`. -/
def SampleBuffer.consumeUnchecked (b : SampleBuffer) (count : Nat) : List ℚ × SampleBuffer :=
  let out := consumeGo (count + b.chunks.length) count b.chunks
  (out.1 ++ List.replicate (count - out.1.length) 0, ⟨out.2, b.totalLength - count⟩)

/-- `consume(count)`: throws `"Insufficient samples"` when `count > totalLength`,
otherwise removes and returns the first `count` samples. -/
def SampleBuffer.consume (b : SampleBuffer) (count : Nat) : Except String (List ℚ × SampleBuffer) :=
  if b.totalLength < count then Except.error "Insufficient samples"
  else Except.ok (b.consumeUnchecked count)

/-- `drain()`: returns everything and clears the runs; returns early (leaving
the state untouched) when `totalLength` is zero.  Under the length invariant
the copy loop of the source yields exactly the concatenation of the
unconsumed runs. -/
def SampleBuffer.drain (b : SampleBuffer) : List ℚ × SampleBuffer :=
  if b.totalLength = 0 then ([], b) else (b.toList, SampleBuffer.empty)

/-- `clear()`: drops all runs and zeroes the counter. -/
def SampleBuffer.clear (_ : SampleBuffer) : SampleBuffer := SampleBuffer.empty

/-- The `length` getter (returns the cached counter). -/
def SampleBuffer.length (b : SampleBuffer) : Nat := b.totalLength

theorem chunksJoin_nil : chunksJoin [] = [] := rfl

theorem chunksJoin_cons (c : Chunk) (cs : List Chunk) :
    chunksJoin (c :: cs) = c.toList ++ chunksJoin cs := rfl

theorem length_chunksJoin (cs : List Chunk) :
    (chunksJoin cs).length = (cs.map Chunk.remaining).sum := by
  induction cs with
  | nil => rfl
  | cons c cs ih =>
    simp [chunksJoin_cons, ih, Chunk.toList, Chunk.remaining]

theorem SampleBuffer.toList_length (b : SampleBuffer) (h : b.WF) :
    b.toList.length = b.totalLength := by
  rw [SampleBuffer.toList, length_chunksJoin, h]

theorem take_glue (A J : List ℚ) (n : Nat) :
    A.take (min A.length n) ++ (A.drop (min A.length n) ++ J).take (n - min A.length n)
      = (A ++ J).take n := by
  rcases Nat.le_total A.length n with h | h
  · have hm : min A.length n = A.length := Nat.min_eq_left h
    rw [hm, List.take_length, List.drop_length, List.nil_append,
      List.take_append_eq_append_take, List.take_of_length_le h]
  · have hm : min A.length n = n := Nat.min_eq_right h
    rw [hm, Nat.sub_self, List.take_zero, List.append_nil,
      List.take_append_eq_append_take, Nat.sub_eq_zero_of_le h, List.take_zero,
      List.append_nil]

theorem drop_glue (A J : List ℚ) (n : Nat) :
    (A.drop (min A.length n) ++ J).drop (n - min A.length n) = (A ++ J).drop n := by
  rcases Nat.le_total A.length n with h | h
  · have hm : min A.length n = A.length := Nat.min_eq_left h
    rw [hm, List.drop_length, List.nil_append, List.drop_append_eq_append_drop,
      List.drop_eq_nil_of_le h, List.nil_append]
  · have hm : min A.length n = n := Nat.min_eq_right h
    rw [hm, Nat.sub_self, List.drop_zero, List.drop_append_eq_append_drop,
      Nat.sub_eq_zero_of_le h, List.drop_zero]

theorem consumeGo_zero (fuel : Nat) (cs : List Chunk) : consumeGo fuel 0 cs = ([], cs) := by
  cases fuel <;> rfl

theorem consumeGo_nil (fuel need : Nat) : consumeGo (fuel + 1) (need + 1) [] = ([], []) := rfl

theorem consumeGo_cons_pos (fuel need : Nat) (c : Chunk) (rest : List Chunk)
    (h : 0 < min (c.data.length - c.offset) (need + 1)) :
    consumeGo (fuel + 1) (need + 1) (c :: rest) =
      ((c.data.drop c.offset).take (min (c.data.length - c.offset) (need + 1)) ++
          (consumeGo fuel (need + 1 - min (c.data.length - c.offset) (need + 1))
            (if c.data.length ≤ c.offset + min (c.data.length - c.offset) (need + 1) then rest
             else { data := c.data,
                    offset := c.offset + min (c.data.length - c.offset) (need + 1) } :: rest)).1,
        (consumeGo fuel (need + 1 - min (c.data.length - c.offset) (need + 1))
          (if c.data.length ≤ c.offset + min (c.data.length - c.offset) (need + 1) then rest
           else { data := c.data,
                  offset := c.offset + min (c.data.length - c.offset) (need + 1) } :: rest)).2) := by
  rw [consumeGo]
  simp only [if_pos h]

theorem consumeGo_cons_zero (fuel need : Nat) (c : Chunk) (rest : List Chunk)
    (h : ¬ 0 < min (c.data.length - c.offset) (need + 1)) :
    consumeGo (fuel + 1) (need + 1) (c :: rest) = consumeGo fuel (need + 1) rest := by
  rw [consumeGo]
  simp only [if_neg h]

theorem consumeGo_spec_aux (fuel : Nat) : ∀ (need : Nat) (cs : List Chunk),
    need + cs.length ≤ fuel →
    (consumeGo fuel need cs).1 = (chunksJoin cs).take need ∧
      chunksJoin (consumeGo fuel need cs).2 = (chunksJoin cs).drop need := by
  induction fuel with
  | zero =>
    intro need cs hle
    have hn : need = 0 := by omega
    subst hn
    simp [consumeGo_zero]
  | succ fuel ih =>
    intro need cs hle
    match need, cs with
    | 0, cs => simp [consumeGo_zero]
    | need + 1, [] => simp [consumeGo_nil, chunksJoin_nil]
    | need + 1, c :: rest =>
      have hA : c.data.length - c.offset = c.toList.length := by
        simp [Chunk.toList]
      by_cases h : 0 < min (c.data.length - c.offset) (need + 1)
      · rw [consumeGo_cons_pos fuel need c rest h]
        set toCopy := min (c.data.length - c.offset) (need + 1) with htc
        set rest' := (if c.data.length ≤ c.offset + toCopy then rest
             else { data := c.data, offset := c.offset + toCopy } :: rest) with hrest'
        have hjoin : chunksJoin rest' = c.toList.drop toCopy ++ chunksJoin rest := by
          rw [hrest']
          by_cases hend : c.data.length ≤ c.offset + toCopy
          · have hdn : c.toList.drop toCopy = [] := by
              simp only [Chunk.toList, List.drop_drop]
              exact List.drop_eq_nil_of_le (by omega)
            simp [hend, hdn]
          · have hcl : Chunk.toList { data := c.data, offset := c.offset + toCopy }
                = c.toList.drop toCopy := by
              simp [Chunk.toList, List.drop_drop, Nat.add_comm]
            simp [hend, chunksJoin_cons, hcl]
        have hlen' : rest'.length ≤ rest.length + 1 := by
          rw [hrest']
          by_cases hend : c.data.length ≤ c.offset + toCopy <;> simp [hend]
        have hrec : (need + 1 - toCopy) + rest'.length ≤ fuel := by
          simp only [List.length_cons] at hle
          omega
        obtain ⟨ih1, ih2⟩ := ih (need + 1 - toCopy) rest' hrec
        constructor
        · show (c.data.drop c.offset).take toCopy ++ _ = _
          rw [chunksJoin_cons, ← take_glue c.toList (chunksJoin rest) (need + 1)]
          have : (c.data.drop c.offset).take toCopy = c.toList.take toCopy := rfl
          rw [this, ih1, hjoin]
          rw [htc, hA]
        · rw [chunksJoin_cons, ← drop_glue c.toList (chunksJoin rest) (need + 1)]
          rw [ih2, hjoin]
          rw [htc, hA]
      · rw [consumeGo_cons_zero fuel need c rest h]
        have hnil : c.toList = [] := by
          apply List.eq_nil_of_length_eq_zero
          omega
        have hrec : (need + 1) + rest.length ≤ fuel := by
          simp only [List.length_cons] at hle
          omega
        rw [chunksJoin_cons, hnil, List.nil_append]
        exact ih (need + 1) rest hrec

theorem consumeGo_spec (need : Nat) (cs : List Chunk) :
    (consumeGo (need + cs.length) need cs).1 = (chunksJoin cs).take need ∧
      chunksJoin (consumeGo (need + cs.length) need cs).2 = (chunksJoin cs).drop need :=
  consumeGo_spec_aux (need + cs.length) need cs (Nat.le_refl _)

theorem SampleBuffer.push_empty_noop (b : SampleBuffer) : b.push [] = b := rfl

theorem SampleBuffer.prepend_empty_noop (b : SampleBuffer) : b.prepend [] = b := rfl

theorem SampleBuffer.prepend_toList (b : SampleBuffer) (l : List ℚ) :
    (b.prepend l).toList = l ++ b.toList := by
  by_cases h : l.length = 0
  · have hl : l = [] := List.eq_nil_of_length_eq_zero h
    subst hl
    simp [SampleBuffer.prepend]
  · simp [SampleBuffer.prepend, h, SampleBuffer.toList, chunksJoin_cons, Chunk.toList]

theorem SampleBuffer.prepend_totalLength (b : SampleBuffer) (l : List ℚ) :
    (b.prepend l).totalLength = b.totalLength + l.length := by
  by_cases h : l.length = 0 <;> simp [SampleBuffer.prepend, h]

theorem SampleBuffer.prepend_WF (b : SampleBuffer) (l : List ℚ) (h : b.WF) :
    (b.prepend l).WF := by
  by_cases hl : l.length = 0
  · simpa [SampleBuffer.prepend, hl] using h
  · simp only [SampleBuffer.WF, SampleBuffer.prepend, if_neg hl, List.map_cons, List.sum_cons,
      Chunk.remaining]
    rw [SampleBuffer.WF] at h
    omega

theorem SampleBuffer.push_WF (b : SampleBuffer) (l : List ℚ) (h : b.WF) :
    (b.push l).WF := by
  by_cases hl : l.length = 0
  · simpa [SampleBuffer.push, hl] using h
  · simp only [SampleBuffer.WF, SampleBuffer.push, if_neg hl, List.map_append, List.sum_append,
      List.map_cons, List.sum_cons, List.map_nil, List.sum_nil, Chunk.remaining]
    rw [SampleBuffer.WF] at h
    omega

theorem SampleBuffer.consumeUnchecked_spec (b : SampleBuffer) (n : Nat)
    (hwf : b.WF) (hn : n ≤ b.totalLength) :
    (b.consumeUnchecked n).1 = b.toList.take n ∧
      (b.consumeUnchecked n).2.toList = b.toList.drop n ∧
      (b.consumeUnchecked n).2.totalLength = b.totalLength - n ∧
      (b.consumeUnchecked n).2.WF := by
  obtain ⟨h1, h2⟩ := consumeGo_spec n b.chunks
  have hjoin : chunksJoin b.chunks = b.toList := rfl
  rw [hjoin] at h1 h2
  have hlen : b.toList.length = b.totalLength := b.toList_length hwf
  have hres : (consumeGo (n + b.chunks.length) n b.chunks).1.length = n := by
    rw [h1, List.length_take]
    omega
  refine ⟨?_, ?_, rfl, ?_⟩
  · show (consumeGo (n + b.chunks.length) n b.chunks).1 ++
      List.replicate (n - (consumeGo (n + b.chunks.length) n b.chunks).1.length) 0 = _
    rw [hres, Nat.sub_self, List.replicate_zero, List.append_nil, h1]
  · show chunksJoin (consumeGo (n + b.chunks.length) n b.chunks).2 = _
    exact h2
  · show b.totalLength - n = ((consumeGo (n + b.chunks.length) n b.chunks).2.map Chunk.remaining).sum
    rw [← length_chunksJoin, h2, List.length_drop, hlen]

/-- C3: the `consume` contract.  On a well-formed buffer, `consume n` fails with
the `"Insufficient samples"` error exactly when `n` exceeds the current length;
when `n ≤ length` it returns the first `n` unconsumed samples in order and the
buffer keeps exactly the remaining samples (length reduced by `n`, invariant
preserved). -/
theorem consume_contract (b : SampleBuffer) (n : Nat) (hwf : b.WF) :
    ((∃ e, b.consume n = Except.error e) ↔ b.length < n) ∧
      (b.length < n → b.consume n = Except.error "Insufficient samples") ∧
      (n ≤ b.length →
        ∃ buf', b.consume n = Except.ok (b.toList.take n, buf') ∧
          buf'.toList = b.toList.drop n ∧ buf'.length = b.length - n ∧ buf'.WF) := by
  refine ⟨⟨?_, ?_⟩, ?_, ?_⟩
  · rintro ⟨e, he⟩
    by_contra hlt
    simp only [SampleBuffer.length] at hlt
    rw [SampleBuffer.consume, if_neg hlt] at he
    exact Except.noConfusion he
  · intro hlt
    simp only [SampleBuffer.length] at hlt
    exact ⟨"Insufficient samples", by rw [SampleBuffer.consume, if_pos hlt]⟩
  · intro hlt
    simp only [SampleBuffer.length] at hlt
    rw [SampleBuffer.consume, if_pos hlt]
  · intro hle
    simp only [SampleBuffer.length] at hle
    obtain ⟨h1, h2, h3, h4⟩ := b.consumeUnchecked_spec n hwf hle
    refine ⟨(b.consumeUnchecked n).2, ?_, h2, h3, h4⟩
    rw [SampleBuffer.consume, if_neg (by omega), ← h1]

/-- C3 witness: a concrete two-run buffer; consuming 3 crosses the run
boundary, consuming 6 fails. -/
theorem consume_contract_witness :
    (SampleBuffer.consume ⟨[⟨[1, 2], 0⟩, ⟨[3, 4, 5], 0⟩], 5⟩ 6
        = Except.error "Insufficient samples") ∧
      (∃ buf', SampleBuffer.consume ⟨[⟨[1, 2], 0⟩, ⟨[3, 4, 5], 0⟩], 5⟩ 3
          = Except.ok ([1, 2, 3], buf') ∧ buf'.toList = [4, 5]) := by
  have hwf : SampleBuffer.WF ⟨[⟨[1, 2], 0⟩, ⟨[3, 4, 5], 0⟩], 5⟩ := by decide
  constructor
  · exact (consume_contract ⟨[⟨[1, 2], 0⟩, ⟨[3, 4, 5], 0⟩], 5⟩ 6 hwf).2.1 (by decide)
  · obtain ⟨buf', hok, hrest, -, -⟩ :=
      (consume_contract ⟨[⟨[1, 2], 0⟩, ⟨[3, 4, 5], 0⟩], 5⟩ 3 hwf).2.2 (by decide)
    exact ⟨buf', by simpa using hok, hrest⟩

/-- The operations of the accumulator, for quantifying over call sequences. -/
inductive BufferOp where
  | push (l : List ℚ)
  | prepend (l : List ℚ)
  | consume (n : Nat)
  | drain
  | clear

/-- Apply one operation; a failing `consume` throws before any mutation, so the
state is unchanged. -/
def applyOp (b : SampleBuffer) : BufferOp → SampleBuffer
  | .push l => b.push l
  | .prepend l => b.prepend l
  | .consume n =>
    match b.consume n with
    | .error _ => b
    | .ok out => out.2
  | .drain => b.drain.2
  | .clear => b.clear

/-- Run a call sequence from a freshly constructed buffer. -/
def applyOps (ops : List BufferOp) : SampleBuffer := ops.foldl applyOp SampleBuffer.empty

theorem applyOp_WF (b : SampleBuffer) (op : BufferOp) (h : b.WF) : (applyOp b op).WF := by
  cases op with
  | push l => exact b.push_WF l h
  | prepend l => exact b.prepend_WF l h
  | consume n =>
    by_cases hn : b.totalLength < n
    · simp [applyOp, SampleBuffer.consume, if_pos hn, h]
    · have := (b.consumeUnchecked_spec n h (by omega)).2.2.2
      simp [applyOp, SampleBuffer.consume, if_neg hn, this]
  | drain =>
    by_cases h0 : b.totalLength = 0
    · simpa [applyOp, SampleBuffer.drain, if_pos h0] using h
    · simp [applyOp, SampleBuffer.drain, if_neg h0, SampleBuffer.empty, SampleBuffer.WF]
  | clear => simp [applyOp, SampleBuffer.clear, SampleBuffer.empty, SampleBuffer.WF]

theorem applyOps_go_WF (ops : List BufferOp) :
    ∀ b : SampleBuffer, b.WF → (ops.foldl applyOp b).WF := by
  induction ops with
  | nil => intro b h; exact h
  | cons op ops ih =>
    intro b h
    exact ih _ (applyOp_WF b op h)

/-- C6: along every sequence of push / prepend / consume / drain / clear
operations starting from a fresh accumulator, the cached `length` equals the
sum over runs of `data.length - offset` (the true unconsumed sample count),
and pushing or prepending an empty array leaves the state unchanged. -/
theorem accumulator_length_invariant :
    (∀ ops : List BufferOp, (applyOps ops).WF) ∧
      ∀ b : SampleBuffer, b.push [] = b ∧ b.prepend [] = b :=
  ⟨fun ops => applyOps_go_WF ops SampleBuffer.empty rfl,
    fun b => ⟨b.push_empty_noop, b.prepend_empty_noop⟩⟩

/-- JS `Float32Array.prototype.slice(start)` with a possibly negative start
index (a negative start counts from the end). -/
def jsSliceFrom (l : List ℚ) (start : Int) : List ℚ :=
  if 0 ≤ start then l.drop start.toNat
  else l.drop (l.length - min start.natAbs l.length)

/-- One iteration of the `drainSegments` loop body: consume `segmentSamples`
(the loop condition makes the `consume` guard pass, so it equals
`consumeUnchecked`), and when `overlapSamples > 0` prepend
`samples.slice(segmentSamples - overlapSamples)` back into the buffer.
Returns the new buffer state and the emitted segment. -/
def drainBody (buf : SampleBuffer) (seg ov : Nat) : SampleBuffer × List ℚ :=
  let p := buf.consumeUnchecked seg
  (if 0 < ov then p.2.prepend (jsSliceFrom p.1 ((seg : Int) - (ov : Int))) else p.2, p.1)

/-- The `while (buffer.length >= segmentSamples)` loop of `drainSegments`,
indexed by fuel (the loop need not terminate, so the model observes at most
`fuel` iterations).  Returns the final buffer and the list of emitted
segments in emission order. -/
def drainSegmentsFuel : Nat → SampleBuffer → Nat → Nat → SampleBuffer × List (List ℚ)
  | 0, buf, _, _ => (buf, [])
  | fuel + 1, buf, seg, ov =>
    if seg ≤ buf.length then
      let st := drainBody buf seg ov
      let rest := drainSegmentsFuel fuel st.1 seg ov
      (rest.1, st.2 :: rest.2)
    else (buf, [])

/-- `createFinalSegmentFromRemaining`: drop tails shorter than
`minFinalSamples`, otherwise zero-pad to a full `segmentSamples` window. -/
def createFinalSegmentFromRemaining (remaining : List ℚ) (minFinalSamples segmentSamples : Nat) :
    Option (List ℚ) :=
  if remaining.length < minFinalSamples then none
  else some (remaining.take (min segmentSamples remaining.length) ++
    List.replicate (segmentSamples - min segmentSamples remaining.length) 0)

/-- Inside `drainSegments` the loop guard makes the `consume` call succeed, so
the model's use of `consumeUnchecked` agrees with the throwing `consume`. -/
theorem consume_eq_unchecked (b : SampleBuffer) (n : Nat) (h : n ≤ b.totalLength) :
    b.consume n = Except.ok (b.consumeUnchecked n) := by
  rw [SampleBuffer.consume, if_neg (by omega)]

theorem jsSliceFrom_nonneg (l : List ℚ) (seg ov : Nat) (h : ov ≤ seg) :
    jsSliceFrom l ((seg : Int) - (ov : Int)) = l.drop (seg - ov) := by
  rw [jsSliceFrom, if_pos (by omega)]
  congr 1
  omega

theorem drainBody_snd (buf : SampleBuffer) (seg ov : Nat) :
    (drainBody buf seg ov).2 = (buf.consumeUnchecked seg).1 := rfl

theorem drainBody_fst (buf : SampleBuffer) (seg ov : Nat) :
    (drainBody buf seg ov).1 =
      if 0 < ov then
        (buf.consumeUnchecked seg).2.prepend
          (jsSliceFrom (buf.consumeUnchecked seg).1 ((seg : Int) - (ov : Int)))
      else (buf.consumeUnchecked seg).2 := rfl

theorem drainBody_spec (buf : SampleBuffer) (seg ov : Nat)
    (hwf : buf.WF) (hov : ov ≤ seg) (hseg : seg ≤ buf.totalLength) :
    (drainBody buf seg ov).2 = buf.toList.take seg ∧
      (drainBody buf seg ov).2.length = seg ∧
      (drainBody buf seg ov).1.toList
        = (drainBody buf seg ov).2.drop (seg - ov) ++ buf.toList.drop seg ∧
      (drainBody buf seg ov).1.totalLength = buf.totalLength - seg + ov ∧
      (drainBody buf seg ov).1.WF := by
  obtain ⟨h1, h2, h3, h4⟩ := buf.consumeUnchecked_spec seg hwf hseg
  have hlen : buf.toList.length = buf.totalLength := buf.toList_length hwf
  have hplen : (buf.consumeUnchecked seg).1.length = seg := by
    rw [h1, List.length_take]
    omega
  have hdroplen : ((buf.consumeUnchecked seg).1.drop (seg - ov)).length = ov := by
    rw [List.length_drop, hplen]
    omega
  rw [drainBody_snd, drainBody_fst]
  by_cases hov0 : 0 < ov
  · rw [if_pos hov0]
    refine ⟨h1, hplen, ?_, ?_, SampleBuffer.prepend_WF _ _ h4⟩
    · rw [SampleBuffer.prepend_toList, jsSliceFrom_nonneg _ _ _ hov, h2]
    · rw [SampleBuffer.prepend_totalLength, h3, jsSliceFrom_nonneg _ _ _ hov, hdroplen]
  · rw [if_neg hov0]
    have hov' : ov = 0 := by omega
    subst hov'
    have hnil : (buf.consumeUnchecked seg).1.drop (seg - 0) = [] :=
      List.drop_eq_nil_of_le (by omega)
    exact ⟨h1, hplen, by rw [hnil, List.nil_append, h2], by omega, h4⟩

theorem drainSegmentsFuel_zero (buf : SampleBuffer) (seg ov : Nat) :
    drainSegmentsFuel 0 buf seg ov = (buf, []) := rfl

theorem drainSegmentsFuel_succ_pos (fuel : Nat) (buf : SampleBuffer) (seg ov : Nat)
    (h : seg ≤ buf.length) :
    drainSegmentsFuel (fuel + 1) buf seg ov =
      ((drainSegmentsFuel fuel (drainBody buf seg ov).1 seg ov).1,
        (drainBody buf seg ov).2 :: (drainSegmentsFuel fuel (drainBody buf seg ov).1 seg ov).2) := by
  rw [drainSegmentsFuel]
  simp only [if_pos h]

theorem drainSegmentsFuel_succ_neg (fuel : Nat) (buf : SampleBuffer) (seg ov : Nat)
    (h : ¬ seg ≤ buf.length) :
    drainSegmentsFuel (fuel + 1) buf seg ov = (buf, []) := by
  rw [drainSegmentsFuel]
  simp only [if_neg h]

theorem drainSegmentsFuel_overlap_aux (seg ov : Nat) (hov : ov ≤ seg) :
    ∀ (fuel : Nat) (buf : SampleBuffer), buf.WF →
      (∀ s ∈ (drainSegmentsFuel fuel buf seg ov).2, s.length = seg) ∧
        List.Chain' (fun a b => b.take ov = a.drop (seg - ov))
          (drainSegmentsFuel fuel buf seg ov).2 ∧
        (∀ s, (drainSegmentsFuel fuel buf seg ov).2.head? = some s →
          s.take ov = buf.toList.take ov) ∧
        (drainSegmentsFuel fuel buf seg ov).1.WF := by
  intro fuel
  induction fuel with
  | zero =>
    intro buf hwf
    simp [drainSegmentsFuel_zero, hwf]
  | succ fuel ih =>
    intro buf hwf
    by_cases hguard : seg ≤ buf.length
    · have hseg : seg ≤ buf.totalLength := by
        simpa [SampleBuffer.length] using hguard
      obtain ⟨hb1, hb2, hb3, hb4, hb5⟩ := drainBody_spec buf seg ov hwf hov hseg
      obtain ⟨ih1, ih2, ih3, ih4⟩ := ih (drainBody buf seg ov).1 hb5
      rw [drainSegmentsFuel_succ_pos fuel buf seg ov hguard]
      have hhead : ∀ s,
          (drainSegmentsFuel fuel (drainBody buf seg ov).1 seg ov).2.head? = some s →
          s.take ov = (drainBody buf seg ov).2.drop (seg - ov) := by
        intro s hs
        have hxlen : ((drainBody buf seg ov).2.drop (seg - ov)).length = ov := by
          rw [List.length_drop, hb2]
          omega
        rw [ih3 s hs, hb3, List.take_append_eq_append_take, hxlen, Nat.sub_self,
          List.take_zero, List.append_nil, List.take_of_length_le (le_of_eq hxlen)]
      refine ⟨?_, ?_, ?_, ih4⟩
      · intro s hs
        rcases List.mem_cons.mp hs with h | h
        · rw [h]
          exact hb2
        · exact ih1 s h
      · refine List.chain'_cons'.mpr ⟨?_, ih2⟩
        intro y hy
        rw [Option.mem_def] at hy
        exact hhead y hy
      · intro s hs
        have hseq : s = (drainBody buf seg ov).2 := by
          simp only [List.head?_cons, Option.some.injEq] at hs
          exact hs.symm
        rw [hseq, hb1, List.take_take, min_eq_left hov]
    · rw [drainSegmentsFuel_succ_neg fuel buf seg ov hguard]
      simp [hwf]

theorem drainSegmentsFuel_term_aux (seg ov : Nat) (hov : ov < seg) :
    ∀ (fuel : Nat) (buf : SampleBuffer), buf.WF → buf.totalLength ≤ fuel →
      (drainSegmentsFuel fuel buf seg ov).1.totalLength < seg ∧
        (drainSegmentsFuel fuel buf seg ov).1.WF := by
  intro fuel
  induction fuel with
  | zero =>
    intro buf hwf hle
    rw [drainSegmentsFuel_zero]
    exact ⟨show buf.totalLength < seg by omega, hwf⟩
  | succ fuel ih =>
    intro buf hwf hle
    by_cases hguard : seg ≤ buf.length
    · have hseg : seg ≤ buf.totalLength := by
        simpa [SampleBuffer.length] using hguard
      obtain ⟨-, -, -, hb4, hb5⟩ := drainBody_spec buf seg ov hwf (le_of_lt hov) hseg
      rw [drainSegmentsFuel_succ_pos fuel buf seg ov hguard]
      exact ih (drainBody buf seg ov).1 hb5 (by omega)
    · rw [drainSegmentsFuel_succ_neg fuel buf seg ov hguard]
      have hlt : buf.totalLength < seg := by
        simp only [SampleBuffer.length, not_le] at hguard
        exact hguard
      exact ⟨hlt, hwf⟩

theorem drainSegmentsFuel_diverge_aux (seg : Nat) :
    ∀ (fuel : Nat) (buf : SampleBuffer), buf.WF → seg ≤ buf.totalLength →
      (drainSegmentsFuel fuel buf seg seg).1.totalLength = buf.totalLength ∧
        (drainSegmentsFuel fuel buf seg seg).2.length = fuel := by
  intro fuel
  induction fuel with
  | zero =>
    intro buf hwf hseg
    simp [drainSegmentsFuel_zero]
  | succ fuel ih =>
    intro buf hwf hseg
    have hguard : seg ≤ buf.length := by
      simpa [SampleBuffer.length] using hseg
    obtain ⟨-, -, -, hb4, hb5⟩ := drainBody_spec buf seg seg hwf (le_refl seg) hseg
    have hlen2 : (drainBody buf seg seg).1.totalLength = buf.totalLength := by omega
    rw [drainSegmentsFuel_succ_pos fuel buf seg seg hguard]
    obtain ⟨a, b⟩ := ih (drainBody buf seg seg).1 hb5 (by omega)
    exact ⟨by rw [a, hlen2], by simp [b]⟩

/-- C1: segmenter overlap invariant.  For any run of the (fuel-indexed)
`drainSegments` loop with `0 < overlapSamples ≤ segmentSamples` on a
well-formed accumulator, every emitted segment has length `segmentSamples`,
and for every pair of consecutively emitted segments the first
`overlapSamples` samples of segment `k+1` equal the last `overlapSamples`
samples of segment `k` (its `drop (segmentSamples - overlapSamples)`). -/
theorem drainSegments_overlap_invariant (fuel : Nat) (buf : SampleBuffer) (seg ov : Nat)
    (hwf : buf.WF) (hov0 : 0 < ov) (hov : ov ≤ seg) :
    (∀ s ∈ (drainSegmentsFuel fuel buf seg ov).2, s.length = seg) ∧
      ∀ (k : Nat) (hk : k + 1 < (drainSegmentsFuel fuel buf seg ov).2.length),
        ((drainSegmentsFuel fuel buf seg ov).2.get ⟨k + 1, hk⟩).take ov
          = ((drainSegmentsFuel fuel buf seg ov).2.get
              ⟨k, Nat.lt_of_succ_lt hk⟩).drop (seg - ov) := by
  obtain ⟨h1, h2, -, -⟩ := drainSegmentsFuel_overlap_aux seg ov hov fuel buf hwf
  refine ⟨h1, ?_⟩
  intro k hk
  exact List.chain'_iff_get.mp h2 k (by omega)

/-- C1 witness: `[1,2,3,4,5]` with segment 3 and overlap 1 emits
`[[1,2,3],[3,4,5]]`; the second segment's first sample equals the first
segment's last sample. -/
theorem drainSegments_overlap_invariant_witness :
    ((drainSegmentsFuel 5 (SampleBuffer.empty.push [1, 2, 3, 4, 5]) 3 1).2.get
        ⟨1, by decide⟩).take 1
      = ((drainSegmentsFuel 5 (SampleBuffer.empty.push [1, 2, 3, 4, 5]) 3 1).2.get
          ⟨0, by decide⟩).drop 2 :=
  (drainSegments_overlap_invariant 5 (SampleBuffer.empty.push [1, 2, 3, 4, 5]) 3 1
    (by decide) (by decide) (by decide)).2 0 (by decide)

/-- C7: segmenter residual bound.  With `segmentSamples ≥ 1` and
`overlapSamples < segmentSamples`, running the loop to completion (fuel =
current length suffices) leaves fewer than `segmentSamples` samples, hence at
most `segmentSamples - 1 + overlapSamples`. -/
theorem drainSegments_residual_bound (buf : SampleBuffer) (seg ov : Nat)
    (hwf : buf.WF) (hseg1 : 1 ≤ seg) (hov : ov < seg) :
    (drainSegmentsFuel buf.totalLength buf seg ov).1.totalLength < seg ∧
      (drainSegmentsFuel buf.totalLength buf seg ov).1.totalLength ≤ seg - 1 + ov := by
  obtain ⟨h, -⟩ := drainSegmentsFuel_term_aux seg ov hov buf.totalLength buf hwf (le_refl _)
  exact ⟨h, by omega⟩

/-- C7 witness: `[1,2,3,4,5]`, segment 3, overlap 1: the run completes with 1
retained sample. -/
theorem drainSegments_residual_bound_witness :
    (drainSegmentsFuel (SampleBuffer.empty.push [1, 2, 3, 4, 5]).totalLength
        (SampleBuffer.empty.push [1, 2, 3, 4, 5]) 3 1).1.totalLength < 3 ∧
      (drainSegmentsFuel (SampleBuffer.empty.push [1, 2, 3, 4, 5]).totalLength
        (SampleBuffer.empty.push [1, 2, 3, 4, 5]) 3 1).1.totalLength ≤ 3 - 1 + 1 :=
  drainSegments_residual_bound (SampleBuffer.empty.push [1, 2, 3, 4, 5]) 3 1
    (by decide) (by decide) (by decide)

/-- C10: termination dichotomy of `drainSegments`.  (i) Each loop iteration
changes the length to `length - (segmentSamples - overlapSamples)`, a strict
decrease when `overlapSamples < segmentSamples`, so the loop terminates within
`length` iterations (the final state fails the loop guard).  (ii) When
`overlapSamples = segmentSamples` and at least `segmentSamples` samples are
held, every iteration leaves the length unchanged, the guard never fails, and
the loop emits one segment per unit of fuel — it never terminates. -/
theorem drainSegments_termination_dichotomy :
    (∀ (buf : SampleBuffer) (seg ov : Nat), buf.WF → ov ≤ seg → seg ≤ buf.totalLength →
        (drainBody buf seg ov).1.totalLength = buf.totalLength - (seg - ov)) ∧
      (∀ (buf : SampleBuffer) (seg ov : Nat), buf.WF → ov < seg →
        (drainSegmentsFuel buf.totalLength buf seg ov).1.totalLength < seg) ∧
      (∀ (buf : SampleBuffer) (seg : Nat), buf.WF → seg ≤ buf.totalLength →
        ∀ fuel, (drainSegmentsFuel fuel buf seg seg).1.totalLength = buf.totalLength ∧
          seg ≤ (drainSegmentsFuel fuel buf seg seg).1.totalLength ∧
          (drainSegmentsFuel fuel buf seg seg).2.length = fuel) := by
  refine ⟨?_, ?_, ?_⟩
  · intro buf seg ov hwf hov hseg
    obtain ⟨-, -, -, hb4, -⟩ := drainBody_spec buf seg ov hwf hov hseg
    omega
  · intro buf seg ov hwf hov
    exact (drainSegmentsFuel_term_aux seg ov hov buf.totalLength buf hwf (le_refl _)).1
  · intro buf seg hwf hseg fuel
    obtain ⟨a, b⟩ := drainSegmentsFuel_diverge_aux seg fuel buf hwf hseg
    exact ⟨a, by omega, b⟩

/-- C10 witness: on `[1,2]` with segment 2 = overlap 2, ten iterations still
hold 2 samples and have emitted ten segments; with overlap 1 the loop
terminates below the guard. -/
theorem drainSegments_termination_dichotomy_witness :
    ((drainSegmentsFuel 10 (SampleBuffer.empty.push [1, 2]) 2 2).1.totalLength = 2 ∧
        2 ≤ (drainSegmentsFuel 10 (SampleBuffer.empty.push [1, 2]) 2 2).1.totalLength ∧
        (drainSegmentsFuel 10 (SampleBuffer.empty.push [1, 2]) 2 2).2.length = 10) ∧
      (drainSegmentsFuel (SampleBuffer.empty.push [1, 2]).totalLength
        (SampleBuffer.empty.push [1, 2]) 2 1).1.totalLength < 2 :=
  ⟨drainSegments_termination_dichotomy.2.2 (SampleBuffer.empty.push [1, 2]) 2
      (by decide) (by decide) 10,
    drainSegments_termination_dichotomy.2.1 (SampleBuffer.empty.push [1, 2]) 2 1
      (by decide) (by decide)⟩

/-- C8: final-segment policy.  `createFinalSegmentFromRemaining` returns
`none` exactly when the remaining tail is shorter than `minFinalSamples`;
otherwise it returns a segment of length exactly `segmentSamples` whose
prefix is the first `min(remaining.length, segmentSamples)` samples of the
tail and whose suffix is zero padding. -/
theorem createFinalSegment_policy (remaining : List ℚ) (minFinalSamples segmentSamples : Nat) :
    (createFinalSegmentFromRemaining remaining minFinalSamples segmentSamples = none
        ↔ remaining.length < minFinalSamples) ∧
      (minFinalSamples ≤ remaining.length →
        ∃ p, createFinalSegmentFromRemaining remaining minFinalSamples segmentSamples = some p ∧
          p.length = segmentSamples ∧
          p.take (min remaining.length segmentSamples)
            = remaining.take (min remaining.length segmentSamples) ∧
          p.drop (min remaining.length segmentSamples)
            = List.replicate (segmentSamples - min remaining.length segmentSamples) 0) := by
  constructor
  · constructor
    · intro h
      by_contra hlt
      rw [createFinalSegmentFromRemaining, if_neg hlt] at h
      exact Option.noConfusion h
    · intro h
      rw [createFinalSegmentFromRemaining, if_pos h]
  · intro h
    have hXlen : (remaining.take (min segmentSamples remaining.length)).length
        = min segmentSamples remaining.length := by
      rw [List.length_take]
      omega
    have hmm : min remaining.length segmentSamples = min segmentSamples remaining.length := by
      omega
    refine ⟨_, by rw [createFinalSegmentFromRemaining, if_neg (by omega)], ?_, ?_, ?_⟩
    · rw [List.length_append, hXlen, List.length_replicate]
      omega
    · rw [hmm, List.take_append_eq_append_take, hXlen, Nat.sub_self, List.take_zero,
        List.append_nil, List.take_of_length_le (le_of_eq hXlen)]
    · rw [hmm, List.drop_append_eq_append_drop, List.drop_eq_nil_of_le (le_of_eq hXlen),
        hXlen, Nat.sub_self, List.drop_zero, List.nil_append]

/-- C8 witness: a 3-sample tail with threshold 4 is dropped; with threshold 2
and segment size 5 it yields a full-length zero-padded segment. -/
theorem createFinalSegment_policy_witness :
    (createFinalSegmentFromRemaining [1, 2, 3] 4 5 = none) ∧
      ∃ p, createFinalSegmentFromRemaining [1, 2, 3] 2 5 = some p ∧ p.length = 5 := by
  constructor
  · exact (createFinalSegment_policy [1, 2, 3] 4 5).1.mpr (by decide)
  · obtain ⟨p, hp, hlen, -, -⟩ := (createFinalSegment_policy [1, 2, 3] 2 5).2 (by decide)
    exact ⟨p, hp, hlen⟩

/-- The clamped resampling ratio computed by the `StreamingResampler`
constructor: `baseRatio = sourceRate / targetRate`, kept when strictly
positive and replaced by 1 otherwise.  (Rational division by zero yields 0,
so a zero `targetRate` also falls into the clamp branch.) -/
def resamplerRatio (sourceRate targetRate : ℚ) : ℚ :=
  let baseRatio := sourceRate / targetRate
  if 0 < baseRatio then baseRatio else 1

/-- State of a `StreamingResampler`: the clamped ratio and the leftover
buffer carried between `process` calls. -/
structure StreamingResampler where
  ratio : ℚ
  buffer : List ℚ
deriving DecidableEq

/-- The `StreamingResampler` constructor. -/
def mkStreamingResampler (sourceRate targetRate : ℚ) : StreamingResampler :=
  { ratio := resamplerRatio sourceRate targetRate, buffer := [] }

/-- One linear-interpolation output sample of `process` at output index `i`:
`index = i * ratio`, `left = floor(index)`, `right = min(left+1, length-1)`,
`frac = index - left`. -/
def interpAt (combined : List ℚ) (ratio : ℚ) (i : Nat) : ℚ :=
  let index : ℚ := (i : ℚ) * ratio
  let left : Nat := (Int.floor index).toNat
  let right : Nat := min (left + 1) (combined.length - 1)
  let frac : ℚ := index - Int.floor index
  let leftSample := combined.getD left 0
  let rightSample := combined.getD right 0
  leftSample + (rightSample - leftSample) * frac

/-- `process(input)`: returns the updated state and the emitted samples.
Empty input returns immediately; otherwise `combined = leftover ++ input`,
`outputLength = floor(combined.length / ratio)`; when `outputLength ≤ 0` the
whole `combined` becomes the leftover; otherwise `outputLength` interpolated
samples are emitted, `floor(outputLength * ratio)` samples are consumed and
the rest is the new leftover (`drop` covers both arms of the source's
`remaining > 0` conditional). -/
def StreamingResampler.process (r : StreamingResampler) (input : List ℚ) :
    StreamingResampler × List ℚ :=
  if input.length = 0 then (r, [])
  else
    let combined := r.buffer ++ input
    let outputLength : Int := Int.floor ((combined.length : ℚ) / r.ratio)
    if outputLength ≤ 0 then ({ r with buffer := combined }, [])
    else
      let output := (List.range outputLength.toNat).map (interpAt combined r.ratio)
      let consumed : Int := Int.floor ((outputLength : ℚ) * r.ratio)
      ({ r with buffer := combined.drop consumed.toNat }, output)

/-- `flush()`: returns the leftover buffer verbatim and clears it. -/
def StreamingResampler.flush (r : StreamingResampler) : List ℚ × StreamingResampler :=
  (r.buffer, { r with buffer := [] })

/-- The number of input samples a `process` call removes from
`leftover ++ input` (0 on the early-return paths, otherwise
`floor(outputLength * ratio)`). -/
def consumedBy (r : StreamingResampler) (input : List ℚ) : Nat :=
  if input.length = 0 then 0
  else
    let combined := r.buffer ++ input
    let outputLength : Int := Int.floor ((combined.length : ℚ) / r.ratio)
    if outputLength ≤ 0 then 0
    else (Int.floor ((outputLength : ℚ) * r.ratio)).toNat

/-- Fold `process` over a sequence of input chunks. -/
def runChunks : StreamingResampler → List (List ℚ) → StreamingResampler
  | r, [] => r
  | r, c :: cs => runChunks (r.process c).1 cs

/-- The per-call consumption amounts along a sequence of input chunks. -/
def consumedList : StreamingResampler → List (List ℚ) → List Nat
  | _, [] => []
  | r, c :: cs => consumedBy r c :: consumedList (r.process c).1 cs

theorem process_if_empty (r : StreamingResampler) (input : List ℚ) (h : input.length = 0) :
    r.process input = (r, []) := by
  rw [StreamingResampler.process, if_pos h]

theorem process_if_small (r : StreamingResampler) (input : List ℚ) (h0 : ¬ input.length = 0)
    (h1 : Int.floor (((r.buffer ++ input).length : ℚ) / r.ratio) ≤ 0) :
    r.process input = ({ r with buffer := r.buffer ++ input }, []) := by
  rw [StreamingResampler.process, if_neg h0]
  simp only [if_pos h1]

theorem process_if_big (r : StreamingResampler) (input : List ℚ) (h0 : ¬ input.length = 0)
    (h1 : ¬ Int.floor (((r.buffer ++ input).length : ℚ) / r.ratio) ≤ 0) :
    r.process input =
      ({ r with buffer := ((r.buffer ++ input).drop
            (Int.floor (((Int.floor (((r.buffer ++ input).length : ℚ) / r.ratio) : ℤ) : ℚ)
              * r.ratio)).toNat) },
        (List.range (Int.floor (((r.buffer ++ input).length : ℚ) / r.ratio)).toNat).map
          (interpAt (r.buffer ++ input) r.ratio)) := by
  rw [StreamingResampler.process, if_neg h0]
  simp only [if_neg h1]

theorem consumedBy_if_empty (r : StreamingResampler) (input : List ℚ) (h : input.length = 0) :
    consumedBy r input = 0 := by
  rw [consumedBy, if_pos h]

theorem consumedBy_if_small (r : StreamingResampler) (input : List ℚ) (h0 : ¬ input.length = 0)
    (h1 : Int.floor (((r.buffer ++ input).length : ℚ) / r.ratio) ≤ 0) :
    consumedBy r input = 0 := by
  rw [consumedBy, if_neg h0]
  simp only [if_pos h1]

theorem consumedBy_if_big (r : StreamingResampler) (input : List ℚ) (h0 : ¬ input.length = 0)
    (h1 : ¬ Int.floor (((r.buffer ++ input).length : ℚ) / r.ratio) ≤ 0) :
    consumedBy r input =
      (Int.floor (((Int.floor (((r.buffer ++ input).length : ℚ) / r.ratio) : ℤ) : ℚ)
        * r.ratio)).toNat := by
  rw [consumedBy, if_neg h0]
  simp only [if_neg h1]

theorem consumed_le (L : Nat) (ratio : ℚ) (hr : 0 < ratio) :
    (Int.floor (((Int.floor ((L : ℚ) / ratio) : ℤ) : ℚ) * ratio)).toNat ≤ L := by
  by_cases hpos : (0 : ℤ) < Int.floor ((L : ℚ) / ratio)
  · have h1 : ((Int.floor ((L : ℚ) / ratio) : ℤ) : ℚ) ≤ (L : ℚ) / ratio := Int.floor_le _
    have h2 : ((Int.floor ((L : ℚ) / ratio) : ℤ) : ℚ) * ratio ≤ (L : ℚ) :=
      (le_div_iff₀ hr).mp h1
    have h3 : Int.floor (((Int.floor ((L : ℚ) / ratio) : ℤ) : ℚ) * ratio)
        ≤ Int.floor ((L : ℚ)) := Int.floor_le_floor h2
    have h4 : Int.floor ((L : ℚ)) = (L : ℤ) := Int.floor_natCast L
    omega
  · have h1 : ((Int.floor ((L : ℚ) / ratio) : ℤ) : ℚ) ≤ 0 := by
      exact_mod_cast Int.not_lt.mp hpos
    have h2 : ((Int.floor ((L : ℚ) / ratio) : ℤ) : ℚ) * ratio ≤ 0 :=
      mul_nonpos_of_nonpos_of_nonneg h1 (le_of_lt hr)
    have h3 : Int.floor (((Int.floor ((L : ℚ) / ratio) : ℤ) : ℚ) * ratio) ≤ 0 := by
      have := Int.floor_le_floor h2
      simpa using this
    omega

theorem process_ratio (r : StreamingResampler) (input : List ℚ) :
    (r.process input).1.ratio = r.ratio := by
  by_cases h0 : input.length = 0
  · rw [process_if_empty r input h0]
  · by_cases h1 : Int.floor (((r.buffer ++ input).length : ℚ) / r.ratio) ≤ 0
    · rw [process_if_small r input h0 h1]
    · rw [process_if_big r input h0 h1]

theorem process_buffer_eq (r : StreamingResampler) (input : List ℚ) (hr : 0 < r.ratio) :
    (r.process input).1.buffer = (r.buffer ++ input).drop (consumedBy r input) ∧
      consumedBy r input ≤ (r.buffer ++ input).length := by
  by_cases h0 : input.length = 0
  · have hnil : input = [] := List.eq_nil_of_length_eq_zero h0
    subst hnil
    rw [process_if_empty r [] rfl, consumedBy_if_empty r [] rfl]
    simp
  · by_cases h1 : Int.floor (((r.buffer ++ input).length : ℚ) / r.ratio) ≤ 0
    · rw [process_if_small r input h0 h1, consumedBy_if_small r input h0 h1]
      simp
    · rw [process_if_big r input h0 h1, consumedBy_if_big r input h0 h1]
      exact ⟨rfl, consumed_le (r.buffer ++ input).length r.ratio hr⟩

theorem process_emit_length (r : StreamingResampler) (input : List ℚ)
    (hr : 0 < r.ratio) (hne : ¬ input.length = 0) :
    (r.process input).2.length
      = (Int.floor (((r.buffer ++ input).length : ℚ) / r.ratio)).toNat := by
  by_cases h1 : Int.floor (((r.buffer ++ input).length : ℚ) / r.ratio) ≤ 0
  · rw [process_if_small r input hne h1]
    show (0 : Nat) = _
    omega
  · rw [process_if_big r input hne h1]
    show ((List.range (Int.floor (((r.buffer ++ input).length : ℚ) / r.ratio)).toNat).map
      (interpAt (r.buffer ++ input) r.ratio)).length = _
    rw [List.length_map, List.length_range]

theorem consumedBy_formula (r : StreamingResampler) (input : List ℚ)
    (hr : 0 < r.ratio) (hne : ¬ input.length = 0) :
    consumedBy r input
      = (Int.floor (((r.process input).2.length : ℚ) * r.ratio)).toNat := by
  rw [process_emit_length r input hr hne]
  by_cases h1 : Int.floor (((r.buffer ++ input).length : ℚ) / r.ratio) ≤ 0
  · rw [consumedBy_if_small r input hne h1]
    have hz : (Int.floor (((r.buffer ++ input).length : ℚ) / r.ratio)).toNat = 0 := by omega
    rw [hz]
    simp
  · rw [consumedBy_if_big r input hne h1]
    have hnn : (0 : ℤ) ≤ Int.floor (((r.buffer ++ input).length : ℚ) / r.ratio) := by omega
    have hcast : (((Int.floor (((r.buffer ++ input).length : ℚ) / r.ratio)).toNat : ℕ) : ℚ)
        = ((Int.floor (((r.buffer ++ input).length : ℚ) / r.ratio) : ℤ) : ℚ) := by
      exact_mod_cast congrArg (fun z : ℤ => (z : ℚ)) (Int.toNat_of_nonneg hnn)
    rw [hcast]

theorem process_buffer_length (r : StreamingResampler) (input : List ℚ) (hr : 0 < r.ratio) :
    (r.process input).1.buffer.length + consumedBy r input
      = r.buffer.length + input.length := by
  obtain ⟨hb, hle⟩ := process_buffer_eq r input hr
  rw [hb, List.length_drop]
  rw [List.length_append] at hle ⊢
  omega

theorem runChunks_conservation (chunks : List (List ℚ)) :
    ∀ r : StreamingResampler, 0 < r.ratio →
      (consumedList r chunks).sum + (runChunks r chunks).buffer.length
        = (chunks.map List.length).sum + r.buffer.length := by
  induction chunks with
  | nil =>
    intro r hr
    simp [runChunks, consumedList]
  | cons c cs ih =>
    intro r hr
    have hstep := process_buffer_length r c hr
    have hr' : 0 < (r.process c).1.ratio := by
      rw [process_ratio]
      exact hr
    have hrec := ih (r.process c).1 hr'
    simp only [runChunks, consumedList, List.map_cons, List.sum_cons]
    omega

/-- C2: resampler chunk-boundary conservation.  For any state with positive
ratio and non-empty input, with `combined = leftover ++ input`: the call emits
exactly `floor(combined.length / ratio)` samples, consumes
`floor(outputLength * ratio) ≤ combined.length` samples, keeps exactly the
remaining `combined.length - consumed` samples as the new leftover, which a
subsequent `flush()` returns verbatim (and then clears); and across any
sequence of `process` calls from a fresh (empty-leftover) state, the total
input length equals the total consumed length plus the flush remainder
length. -/
theorem resampler_chunk_conservation :
    (∀ (r : StreamingResampler) (input : List ℚ), 0 < r.ratio → input ≠ [] →
        (r.process input).2.length
            = (Int.floor (((r.buffer ++ input).length : ℚ) / r.ratio)).toNat ∧
          consumedBy r input
            = (Int.floor (((r.process input).2.length : ℚ) * r.ratio)).toNat ∧
          (r.process input).1.buffer = (r.buffer ++ input).drop (consumedBy r input) ∧
          consumedBy r input ≤ (r.buffer ++ input).length ∧
          (r.process input).1.buffer.length
            = (r.buffer ++ input).length - consumedBy r input ∧
          ((r.process input).1.flush).1 = (r.process input).1.buffer ∧
          ((r.process input).1.flush).2.buffer = []) ∧
      ∀ (r : StreamingResampler) (chunks : List (List ℚ)), 0 < r.ratio → r.buffer = [] →
        (consumedList r chunks).sum + ((runChunks r chunks).flush).1.length
          = (chunks.map List.length).sum := by
  constructor
  · intro r input hr hne
    have hne' : ¬ input.length = 0 := fun h => hne (List.eq_nil_of_length_eq_zero h)
    obtain ⟨hb, hle⟩ := process_buffer_eq r input hr
    refine ⟨process_emit_length r input hr hne', consumedBy_formula r input hr hne',
      hb, hle, ?_, rfl, rfl⟩
    rw [hb, List.length_drop]
  · intro r chunks hr hbuf
    have hcons := runChunks_conservation chunks r hr
    rw [hbuf] at hcons
    simpa using hcons

/-- C2 witness: a fresh 3:1 downsampler fed 7 samples emits
`floor(7/3) = 2` samples, consumes `floor(2*3) = 6`, and keeps `[7]` as the
leftover. -/
theorem resampler_chunk_conservation_witness :
    ((mkStreamingResampler 3 1).process [1, 2, 3, 4, 5, 6, 7]).2.length
        = (Int.floor ((((mkStreamingResampler 3 1).buffer ++ [1, 2, 3, 4, 5, 6, 7]).length : ℚ)
            / (mkStreamingResampler 3 1).ratio)).toNat ∧
      ((mkStreamingResampler 3 1).process [1, 2, 3, 4, 5, 6, 7]).2.length = 2 ∧
      consumedBy (mkStreamingResampler 3 1) [1, 2, 3, 4, 5, 6, 7] = 6 ∧
      ((mkStreamingResampler 3 1).process [1, 2, 3, 4, 5, 6, 7]).1.buffer = [7] := by
  have hr : (mkStreamingResampler 3 1).ratio = 3 := by
    norm_num [mkStreamingResampler, resamplerRatio]
  have hrpos : 0 < (mkStreamingResampler 3 1).ratio := by
    rw [hr]
    norm_num
  have hbuf : (mkStreamingResampler 3 1).buffer = [] := rfl
  have h0 : ¬ ([1, 2, 3, 4, 5, 6, 7] : List ℚ).length = 0 := by simp
  have hlen : (((mkStreamingResampler 3 1).buffer ++ [1, 2, 3, 4, 5, 6, 7]).length : ℚ) = 7 := by
    rw [hbuf]
    norm_num
  have hfloor : Int.floor ((((mkStreamingResampler 3 1).buffer
      ++ [1, 2, 3, 4, 5, 6, 7]).length : ℚ) / (mkStreamingResampler 3 1).ratio) = 2 := by
    rw [hlen, hr]
    norm_num [Int.floor_eq_iff]
  have h1 : ¬ Int.floor ((((mkStreamingResampler 3 1).buffer
      ++ [1, 2, 3, 4, 5, 6, 7]).length : ℚ) / (mkStreamingResampler 3 1).ratio) ≤ 0 := by
    rw [hfloor]
    norm_num
  have hemit : ((mkStreamingResampler 3 1).process [1, 2, 3, 4, 5, 6, 7]).2.length
      = (Int.floor ((((mkStreamingResampler 3 1).buffer ++ [1, 2, 3, 4, 5, 6, 7]).length : ℚ)
          / (mkStreamingResampler 3 1).ratio)).toNat :=
    (resampler_chunk_conservation.1 (mkStreamingResampler 3 1) [1, 2, 3, 4, 5, 6, 7]
      hrpos (by simp)).1
  have hconsumed : consumedBy (mkStreamingResampler 3 1) [1, 2, 3, 4, 5, 6, 7] = 6 := by
    rw [consumedBy_if_big (mkStreamingResampler 3 1) [1, 2, 3, 4, 5, 6, 7] h0 h1, hfloor, hr]
    norm_num [Int.floor_eq_iff]
    rfl
  refine ⟨hemit, ?_, hconsumed, ?_⟩
  · rw [hemit, hfloor]
    rfl
  · have hb := (resampler_chunk_conservation.1 (mkStreamingResampler 3 1) [1, 2, 3, 4, 5, 6, 7]
      hrpos (by simp)).2.2.1
    rw [hb, hconsumed, hbuf]
    rfl

/-- C9 counterexample: the claim says the ratio is (effectively) at least 1
whenever `targetRate ≥ sourceRate`, but the constructor only replaces a
non-positive ratio by 1: at `(sourceRate, targetRate) = (8000, 16000)` the
ratio is `1/2 < 1`. -/
theorem resampler_ratio_clamp_counterexample :
    (8000 : ℚ) ≤ 16000 ∧ resamplerRatio 8000 16000 = 1 / 2 ∧
      resamplerRatio 8000 16000 < 1 := by
  have h : resamplerRatio 8000 16000 = 1 / 2 := by
    rw [resamplerRatio]
    norm_num
  exact ⟨by norm_num, h, by rw [h]; norm_num⟩

/-- C9 (amended): the ratio used by the resampler is
`sourceRate / targetRate` whenever that quotient is positive — including
upsampling pairs with `targetRate ≥ sourceRate`, where it is below 1 — and a
non-positive computed ratio is replaced by 1; the ratio is positive in all
cases. -/
theorem resampler_ratio_positive_clamp (sourceRate targetRate : ℚ) :
    0 < resamplerRatio sourceRate targetRate ∧
      (0 < sourceRate / targetRate →
        resamplerRatio sourceRate targetRate = sourceRate / targetRate) ∧
      (¬ 0 < sourceRate / targetRate → resamplerRatio sourceRate targetRate = 1) := by
  simp only [resamplerRatio]
  by_cases h : 0 < sourceRate / targetRate
  · rw [if_pos h]
    exact ⟨h, fun _ => rfl, fun hc => absurd h hc⟩
  · rw [if_neg h]
    exact ⟨one_pos, fun hc => absurd hc h, fun _ => rfl⟩

/-- C9 witness: at `(8000, 16000)` the ratio equals the raw quotient and is
positive; at `(0, 16000)` the clamp replaces the non-positive quotient by 1. -/
theorem resampler_ratio_positive_clamp_witness :
    resamplerRatio 8000 16000 = 8000 / 16000 ∧ 0 < resamplerRatio 8000 16000 ∧
      resamplerRatio 0 16000 = 1 :=
  ⟨(resampler_ratio_positive_clamp 8000 16000).2.1 (by norm_num),
    (resampler_ratio_positive_clamp 8000 16000).1,
    (resampler_ratio_positive_clamp 0 16000).2.2 (by norm_num)⟩

/-- Two little-endian bytes of a `DataView.setUint16(..., true)` store. -/
def u16le (n : Nat) : List Nat := [n % 256, n / 256 % 256]

/-- Four little-endian bytes of a `DataView.setUint32(..., true)` store. -/
def u32le (n : Nat) : List Nat :=
  [n % 256, n / 256 % 256, n / 65536 % 256, n / 16777216 % 256]

/-- Truncation toward zero, as the JS number-to-integer conversion of
`DataView.setInt16` performs. -/
def ratTrunc (x : ℚ) : Int := if x < 0 then Int.ceil x else Int.floor x

/-- The 16-bit PCM quantisation of one sample (source lines 151-152): clamp to
[-1,1], scale a negative value by 0x8000 and a non-negative one by 0x7fff,
then truncate to an integer. -/
def quantizeSample (s : ℚ) : Int :=
  let c := max (-1) (min 1 s)
  ratTrunc (if c < 0 then c * 32768 else c * 32767)

/-- The two little-endian bytes `DataView.setInt16(..., v, true)` stores:
the two's complement residue `v mod 2^16`, split into low and high byte. -/
def int16le (v : Int) : List Nat :=
  let u := (v % 65536).toNat
  [u % 256, u / 256]

/-- The byte content of the `Blob` returned by `createWavBlob`: the 44-byte
RIFF/WAVE header writes of the source followed by the per-sample
`setInt16` writes. -/
def createWavBlob (samples : List ℚ) (sampleRate : Nat) : List Nat :=
  let bytesPerSample := 2
  let blockAlign := bytesPerSample
  let byteRate := sampleRate * blockAlign
  let dataSize := samples.length * bytesPerSample
  [82, 73, 70, 70] ++ u32le (36 + dataSize) ++
    [87, 65, 86, 69] ++ [102, 109, 116, 32] ++
    u32le 16 ++ u16le 1 ++ u16le 1 ++ u32le sampleRate ++ u32le byteRate ++
    u16le blockAlign ++ u16le 16 ++ [100, 97, 116, 97] ++ u32le dataSize ++
    (samples.map (fun s => int16le (quantizeSample s))).flatten

/-- The sample byte stream of the `data` subchunk. -/
def payloadBytes (samples : List ℚ) : List Nat :=
  (samples.map (fun s => int16le (quantizeSample s))).flatten

/-- The 44 header bytes of `createWavBlob` as a function of the sample count
and rate. -/
def wavHeader (numSamples rate : Nat) : List Nat :=
  [82, 73, 70, 70] ++ u32le (36 + numSamples * 2) ++ [87, 65, 86, 69] ++ [102, 109, 116, 32]
    ++ u32le 16 ++ u16le 1 ++ u16le 1 ++ u32le rate ++ u32le (rate * 2)
    ++ u16le 2 ++ u16le 16 ++ [100, 97, 116, 97] ++ u32le (numSamples * 2)

/-- A 16-bit little-endian read at a byte offset. -/
def readU16 (bytes : List Nat) (off : Nat) : Nat :=
  bytes.getD off 0 + 256 * bytes.getD (off + 1) 0

/-- A 32-bit little-endian read at a byte offset. -/
def readU32 (bytes : List Nat) (off : Nat) : Nat :=
  bytes.getD off 0 + 256 * bytes.getD (off + 1) 0 + 65536 * bytes.getD (off + 2) 0
    + 16777216 * bytes.getD (off + 3) 0

/-- A signed 16-bit little-endian (two's complement) read at a byte offset. -/
def readI16 (bytes : List Nat) (off : Nat) : Int :=
  let u := readU16 bytes off
  if u < 32768 then (u : Int) else (u : Int) - 65536

theorem createWavBlob_split (samples : List ℚ) (rate : Nat) :
    createWavBlob samples rate = wavHeader samples.length rate ++ payloadBytes samples := by
  simp [createWavBlob, wavHeader, payloadBytes, List.append_assoc]

theorem wavHeader_length (n rate : Nat) : (wavHeader n rate).length = 44 := by
  simp [wavHeader, u32le, u16le]

theorem payloadBytes_length (samples : List ℚ) :
    (payloadBytes samples).length = 2 * samples.length := by
  induction samples with
  | nil => rfl
  | cons s rest ih =>
    have hsplit : payloadBytes (s :: rest)
        = int16le (quantizeSample s) ++ payloadBytes rest := rfl
    have h2 : (int16le (quantizeSample s)).length = 2 := rfl
    rw [hsplit, List.length_append, h2, ih, List.length_cons]
    omega

theorem payloadBytes_getD (samples : List ℚ) : ∀ i, i < samples.length →
    (payloadBytes samples).getD (2 * i) 0
        = ((quantizeSample (samples.getD i 0)) % 65536).toNat % 256 ∧
      (payloadBytes samples).getD (2 * i + 1) 0
        = ((quantizeSample (samples.getD i 0)) % 65536).toNat / 256 := by
  induction samples with
  | nil =>
    intro i h
    simp at h
  | cons s rest ih =>
    intro i h
    have hsplit : payloadBytes (s :: rest)
        = ((quantizeSample s % 65536).toNat % 256)
          :: ((quantizeSample s % 65536).toNat / 256) :: payloadBytes rest := rfl
    cases i with
    | zero =>
      rw [hsplit]
      exact ⟨rfl, rfl⟩
    | succ i =>
      have hlt : i < rest.length := by
        simp at h
        omega
      obtain ⟨a, b⟩ := ih i hlt
      have hidx : 2 * (i + 1) = 2 * i + 1 + 1 := by omega
      have hidx' : 2 * (i + 1) + 1 = 2 * i + 1 + 1 + 1 := by omega
      constructor
      · rw [hsplit, hidx, List.getD_cons_succ, List.getD_cons_succ]
        exact a
      · rw [hsplit, hidx', List.getD_cons_succ, List.getD_cons_succ]
        exact b

theorem quantize_bounds (s : ℚ) :
    -32768 ≤ quantizeSample s ∧ quantizeSample s ≤ 32767 := by
  rw [quantizeSample]
  set c := max (-1 : ℚ) (min 1 s) with hc
  have hc1 : (-1 : ℚ) ≤ c := le_max_left _ _
  have hc2 : c ≤ 1 := max_le (by norm_num) (min_le_left _ _)
  by_cases h : c < 0
  · have hx : c * 32768 < 0 := mul_neg_of_neg_of_pos h (by norm_num)
    rw [if_pos h, ratTrunc, if_pos hx]
    constructor
    · have hlo : (-32768 : ℚ) ≤ c * 32768 := by nlinarith
      have := Int.ceil_mono hlo
      have hcast : Int.ceil ((-32768 : ℚ)) = -32768 := by
        have : ((-32768 : ℤ) : ℚ) = (-32768 : ℚ) := by norm_num
        rw [← this, Int.ceil_intCast]
      omega
    · have hhi : c * 32768 ≤ 0 := le_of_lt hx
      have := Int.ceil_mono hhi
      have hcast : Int.ceil ((0 : ℚ)) = 0 := by
        have : ((0 : ℤ) : ℚ) = (0 : ℚ) := by norm_num
        rw [← this, Int.ceil_intCast]
      omega
  · have hge : (0 : ℚ) ≤ c := not_lt.mp h
    have hx : ¬ c * 32767 < 0 := not_lt.mpr (mul_nonneg hge (by norm_num))
    rw [if_neg h, ratTrunc, if_neg hx]
    constructor
    · have := Int.le_floor.mpr (show ((0 : ℤ) : ℚ) ≤ c * 32767 by
        exact_mod_cast mul_nonneg hge (by norm_num))
      omega
    · have hhi : c * 32767 ≤ 32767 := by nlinarith
      have := Int.floor_mono hhi
      have hcast : Int.floor ((32767 : ℚ)) = 32767 := by
        have : ((32767 : ℤ) : ℚ) = (32767 : ℚ) := by norm_num
        rw [← this, Int.floor_intCast]
      omega

theorem wavHeader_cons (n rate : Nat) : wavHeader n rate =
    [82, 73, 70, 70,
     (36 + n * 2) % 256, (36 + n * 2) / 256 % 256, (36 + n * 2) / 65536 % 256,
     (36 + n * 2) / 16777216 % 256,
     87, 65, 86, 69, 102, 109, 116, 32,
     16, 0, 0, 0, 1, 0, 1, 0,
     rate % 256, rate / 256 % 256, rate / 65536 % 256, rate / 16777216 % 256,
     rate * 2 % 256, rate * 2 / 256 % 256, rate * 2 / 65536 % 256, rate * 2 / 16777216 % 256,
     2, 0, 16, 0, 100, 97, 116, 97,
     n * 2 % 256, n * 2 / 256 % 256, n * 2 / 65536 % 256, n * 2 / 16777216 % 256] := by
  simp [wavHeader, u32le, u16le]

/-- C4: WAV encoding postcondition.  For every sample list and positive sample
rate (with the sizes inside the 32-bit range of the header fields), the byte
buffer has exactly `44 + 2 * samples.length` bytes; the header is little-endian
RIFF/WAVE: bytes 0-3 spell `RIFF`, the chunk size field reads
`36 + dataSize`, bytes 8-11 spell `WAVE`, bytes 12-15 spell `fmt `, the
subchunk size reads 16 with PCM tag 1 and 1 channel, the rate field reads the
given rate, byte rate `rate * 2`, block align 2, bit depth 16, bytes 36-39
spell `data` with data size `2 * samples.length`; and each payload sample
reads back (as a little-endian signed 16-bit integer) as the input clamped to
[-1,1] and scaled by 32768 when negative and 32767 when non-negative. -/
theorem createWav_postcondition (samples : List ℚ) (rate : Nat) (hrate : 0 < rate)
    (hsize : 36 + samples.length * 2 < 4294967296) (hbr : rate * 2 < 4294967296) :
    (createWavBlob samples rate).length = 44 + 2 * samples.length ∧
      ((createWavBlob samples rate).getD 0 0 = 82 ∧ (createWavBlob samples rate).getD 1 0 = 73 ∧
        (createWavBlob samples rate).getD 2 0 = 70 ∧ (createWavBlob samples rate).getD 3 0 = 70) ∧
      readU32 (createWavBlob samples rate) 4 = 36 + samples.length * 2 ∧
      ((createWavBlob samples rate).getD 8 0 = 87 ∧ (createWavBlob samples rate).getD 9 0 = 65 ∧
        (createWavBlob samples rate).getD 10 0 = 86 ∧ (createWavBlob samples rate).getD 11 0 = 69) ∧
      ((createWavBlob samples rate).getD 12 0 = 102 ∧
        (createWavBlob samples rate).getD 13 0 = 109 ∧
        (createWavBlob samples rate).getD 14 0 = 116 ∧
        (createWavBlob samples rate).getD 15 0 = 32) ∧
      readU32 (createWavBlob samples rate) 16 = 16 ∧
      readU16 (createWavBlob samples rate) 20 = 1 ∧
      readU16 (createWavBlob samples rate) 22 = 1 ∧
      readU32 (createWavBlob samples rate) 24 = rate ∧
      readU32 (createWavBlob samples rate) 28 = rate * 2 ∧
      readU16 (createWavBlob samples rate) 32 = 2 ∧
      readU16 (createWavBlob samples rate) 34 = 16 ∧
      ((createWavBlob samples rate).getD 36 0 = 100 ∧
        (createWavBlob samples rate).getD 37 0 = 97 ∧
        (createWavBlob samples rate).getD 38 0 = 116 ∧
        (createWavBlob samples rate).getD 39 0 = 97) ∧
      readU32 (createWavBlob samples rate) 40 = samples.length * 2 ∧
      ∀ i, i < samples.length →
        readI16 (createWavBlob samples rate) (44 + 2 * i)
            = quantizeSample (samples.getD i 0) ∧
          -32768 ≤ quantizeSample (samples.getD i 0) ∧
          quantizeSample (samples.getD i 0) ≤ 32767 := by
  have hlen : (createWavBlob samples rate).length = 44 + 2 * samples.length := by
    rw [createWavBlob_split, List.length_append, wavHeader_length, payloadBytes_length]
  have g : ∀ k, k < 44 →
      (createWavBlob samples rate).getD k 0 = (wavHeader samples.length rate).getD k 0 := by
    intro k hk
    rw [createWavBlob_split,
      List.getD_append _ _ _ _ (by rw [wavHeader_length]; omega)]
  have gu16 : ∀ k, k + 1 < 44 →
      readU16 (createWavBlob samples rate) k = readU16 (wavHeader samples.length rate) k := by
    intro k hk
    rw [readU16, readU16, g k (by omega), g (k + 1) (by omega)]
  have gu32 : ∀ k, k + 3 < 44 →
      readU32 (createWavBlob samples rate) k = readU32 (wavHeader samples.length rate) k := by
    intro k hk
    rw [readU32, readU32, g k (by omega), g (k + 1) (by omega), g (k + 2) (by omega),
      g (k + 3) (by omega)]
  have r4 : readU32 (wavHeader samples.length rate) 4
      = (36 + samples.length * 2) % 256 + 256 * ((36 + samples.length * 2) / 256 % 256)
        + 65536 * ((36 + samples.length * 2) / 65536 % 256)
        + 16777216 * ((36 + samples.length * 2) / 16777216 % 256) := by
    rw [readU32, wavHeader_cons]
    rfl
  have r24 : readU32 (wavHeader samples.length rate) 24
      = rate % 256 + 256 * (rate / 256 % 256) + 65536 * (rate / 65536 % 256)
        + 16777216 * (rate / 16777216 % 256) := by
    rw [readU32, wavHeader_cons]
    rfl
  have r28 : readU32 (wavHeader samples.length rate) 28
      = (rate * 2) % 256 + 256 * ((rate * 2) / 256 % 256) + 65536 * ((rate * 2) / 65536 % 256)
        + 16777216 * ((rate * 2) / 16777216 % 256) := by
    rw [readU32, wavHeader_cons]
    rfl
  have r40 : readU32 (wavHeader samples.length rate) 40
      = (samples.length * 2) % 256 + 256 * ((samples.length * 2) / 256 % 256)
        + 65536 * ((samples.length * 2) / 65536 % 256)
        + 16777216 * ((samples.length * 2) / 16777216 % 256) := by
    rw [readU32, wavHeader_cons]
    rfl
  refine ⟨hlen,
    ⟨by rw [g 0 (by omega), wavHeader_cons]; rfl, by rw [g 1 (by omega), wavHeader_cons]; rfl,
      by rw [g 2 (by omega), wavHeader_cons]; rfl,
      by rw [g 3 (by omega), wavHeader_cons]; rfl⟩,
    by rw [gu32 4 (by omega), r4]; omega,
    ⟨by rw [g 8 (by omega), wavHeader_cons]; rfl, by rw [g 9 (by omega), wavHeader_cons]; rfl,
      by rw [g 10 (by omega), wavHeader_cons]; rfl,
      by rw [g 11 (by omega), wavHeader_cons]; rfl⟩,
    ⟨by rw [g 12 (by omega), wavHeader_cons]; rfl, by rw [g 13 (by omega), wavHeader_cons]; rfl,
      by rw [g 14 (by omega), wavHeader_cons]; rfl,
      by rw [g 15 (by omega), wavHeader_cons]; rfl⟩,
    by rw [gu32 16 (by omega), readU32, wavHeader_cons]; rfl,
    by rw [gu16 20 (by omega), readU16, wavHeader_cons]; rfl,
    by rw [gu16 22 (by omega), readU16, wavHeader_cons]; rfl,
    by rw [gu32 24 (by omega), r24]; omega,
    by rw [gu32 28 (by omega), r28]; omega,
    by rw [gu16 32 (by omega), readU16, wavHeader_cons]; rfl,
    by rw [gu16 34 (by omega), readU16, wavHeader_cons]; rfl,
    ⟨by rw [g 36 (by omega), wavHeader_cons]; rfl, by rw [g 37 (by omega), wavHeader_cons]; rfl,
      by rw [g 38 (by omega), wavHeader_cons]; rfl,
      by rw [g 39 (by omega), wavHeader_cons]; rfl⟩,
    by rw [gu32 40 (by omega), r40]; omega,
    ?_⟩
  intro i hi
  obtain ⟨hq1, hq2⟩ := quantize_bounds (samples.getD i 0)
  obtain ⟨ha, hb⟩ := payloadBytes_getD samples i hi
  have hh44 : (wavHeader samples.length rate).length ≤ 44 + 2 * i := by
    rw [wavHeader_length]
    omega
  have hh44' : (wavHeader samples.length rate).length ≤ 44 + 2 * i + 1 := by
    rw [wavHeader_length]
    omega
  have e0 : (createWavBlob samples rate).getD (44 + 2 * i) 0
      = (payloadBytes samples).getD (2 * i) 0 := by
    rw [createWavBlob_split, List.getD_append_right _ _ _ _ hh44, wavHeader_length]
    have h44 : 44 + 2 * i - 44 = 2 * i := by omega
    rw [h44]
  have e1 : (createWavBlob samples rate).getD (44 + 2 * i + 1) 0
      = (payloadBytes samples).getD (2 * i + 1) 0 := by
    rw [createWavBlob_split, List.getD_append_right _ _ _ _ hh44', wavHeader_length]
    have h44 : 44 + 2 * i + 1 - 44 = 2 * i + 1 := by omega
    rw [h44]
  have hu : readU16 (createWavBlob samples rate) (44 + 2 * i)
      = ((quantizeSample (samples.getD i 0)) % 65536).toNat % 256
        + 256 * (((quantizeSample (samples.getD i 0)) % 65536).toNat / 256) := by
    rw [readU16, e0, e1, ha, hb]
  refine ⟨?_, hq1, hq2⟩
  rw [readI16]
  rw [hu]
  have hA : ((quantizeSample (samples.getD i 0)) % 65536).toNat % 256
      + 256 * (((quantizeSample (samples.getD i 0)) % 65536).toNat / 256)
      = ((quantizeSample (samples.getD i 0)) % 65536).toNat := by omega
  rw [hA]
  split <;> omega

/-- C4 witness: four samples at 16000 Hz: 52 bytes total, the rate field reads
back 16000, and sample 0 (value 1, clamped and scaled by 32767) decodes via
the signed 16-bit read to its quantisation. -/
theorem createWav_postcondition_witness :
    (createWavBlob [1, -1, 0, 1/2] 16000).length = 44 + 2 * 4 ∧
      readU32 (createWavBlob [1, -1, 0, 1/2] 16000) 24 = 16000 ∧
      readI16 (createWavBlob [1, -1, 0, 1/2] 16000) (44 + 2 * 0)
        = quantizeSample (([1, -1, 0, 1/2] : List ℚ).getD 0 0) := by
  obtain ⟨h1, -, -, -, -, -, -, -, h24, -, -, -, -, -, hpay⟩ :=
    createWav_postcondition [1, -1, 0, 1/2] 16000 (by norm_num) (by norm_num) (by norm_num)
  exact ⟨by rw [h1]; rfl, h24, (hpay 0 (by norm_num)).1⟩

/-- Modelled from the spec: the `SegmentUploadController` implementation
(`segment-upload-controller.ts`) is not under src/ — only its unit tests and
its React hook caller are.  Per spec sections 4.5 and 5, the controller holds
a per-session FIFO of pending uploads and runs at most a fixed concurrency
limit (2) of upload workers simultaneously; a worker pulls the next pending
item, performs the remote call, and on success removes the item.  The
concurrency scenario drives it with a transport that always succeeds after
one asynchronous tick, so each started upload completes on the following
tick. -/
structure UploadState where
  pending : List Nat
  inFlight : List Nat
  done : List Nat
  maxObserved : Nat
deriving DecidableEq

/-- Modelled from the spec: the fixed concurrency limit of the Upload
Controller. -/
def uploadConcurrencyLimit : Nat := 2

/-- Modelled from the spec: the controller state right after enqueuing the
given segments into an idle session. -/
def initUpload (segs : List Nat) : UploadState :=
  { pending := segs, inFlight := [], done := [], maxObserved := 0 }

/-- Modelled from the spec: one scheduler tick against the always-succeeding
one-tick transport — fill the free workers from the FIFO (recording the
observed in-flight high-water mark), then every in-flight upload settles
successfully. -/
def uploadStep (s : UploadState) : UploadState :=
  let toStart := min (uploadConcurrencyLimit - s.inFlight.length) s.pending.length
  let started := s.inFlight ++ s.pending.take toStart
  { pending := s.pending.drop toStart,
    inFlight := [],
    done := s.done ++ started,
    maxObserved := max s.maxObserved started.length }

/-- Iterate the scheduler tick. -/
def runUpload : Nat → UploadState → UploadState
  | 0, s => s
  | n + 1, s => runUpload n (uploadStep s)

theorem runUpload_spec : ∀ (n : Nat) (l d : List Nat) (m : Nat),
    (runUpload n ⟨l, [], d, m⟩).pending = l.drop (2 * n) ∧
      (runUpload n ⟨l, [], d, m⟩).done = d ++ l.take (2 * n) ∧
      (runUpload n ⟨l, [], d, m⟩).inFlight = [] ∧
      (runUpload n ⟨l, [], d, m⟩).maxObserved ≤ max m 2 := by
  intro n
  induction n with
  | zero =>
    intro l d m
    refine ⟨rfl, by simp [runUpload], rfl, ?_⟩
    show m ≤ max m 2
    omega
  | succ n ih =>
    intro l d m
    have hstep : uploadStep ⟨l, [], d, m⟩ =
        ⟨l.drop (min 2 l.length), [], d ++ l.take (min 2 l.length),
          max m (l.take (min 2 l.length)).length⟩ := by
      simp [uploadStep, uploadConcurrencyLimit]
    have hrun : runUpload (n + 1) ⟨l, [], d, m⟩
        = runUpload n (uploadStep ⟨l, [], d, m⟩) := rfl
    rw [hrun, hstep]
    obtain ⟨ih1, ih2, ih3, ih4⟩ :=
      ih (l.drop (min 2 l.length)) (d ++ l.take (min 2 l.length))
        (max m (l.take (min 2 l.length)).length)
    refine ⟨?_, ?_, ih3, ?_⟩
    · rw [ih1, List.drop_drop]
      rcases Nat.le_total 2 l.length with h | h
      · have hm2 : min 2 l.length = 2 := by omega
        rw [hm2]
        congr 1
        omega
      · have hm : min 2 l.length = l.length := by omega
        have e1 : List.drop (l.length + 2 * n) l = [] :=
          List.drop_eq_nil_of_le (by omega)
        have e2 : List.drop (2 * (n + 1)) l = [] :=
          List.drop_eq_nil_of_le (by omega)
        rw [hm, e1, e2]
    · rw [ih2, List.append_assoc, ← List.take_add]
      rcases Nat.le_total 2 l.length with h | h
      · have hm2 : min 2 l.length = 2 := by omega
        rw [hm2]
        congr 2
        omega
      · have hm : min 2 l.length = l.length := by omega
        have e1 : List.take (l.length + 2 * n) l = l := List.take_of_length_le (by omega)
        have e2 : List.take (2 * (n + 1)) l = l := List.take_of_length_le (by omega)
        rw [hm, e1, e2]
    · have hlen : (l.take (min 2 l.length)).length ≤ 2 := by
        rw [List.length_take]
        omega
      omega

/-- C5: upload concurrency bound.  In the spec-modelled controller the
observed number of simultaneous in-flight uploads never exceeds the
concurrency limit 2, every enqueued segment is eventually attempted and
completed (after `segs.length` ticks the FIFO is empty and `done` equals the
enqueued list in order), and in particular enqueuing the 5 segments
`[0,1,2,3,4]` against the always-succeeding one-tick transport completes all
5 with an observed maximum of exactly 2 simultaneous uploads. -/
theorem upload_concurrency_bound :
    (∀ (segs : List Nat) (n : Nat),
        (runUpload n (initUpload segs)).maxObserved ≤ uploadConcurrencyLimit ∧
          (runUpload n (initUpload segs)).inFlight.length ≤ uploadConcurrencyLimit) ∧
      (∀ segs : List Nat,
        (runUpload segs.length (initUpload segs)).done = segs ∧
          (runUpload segs.length (initUpload segs)).pending = []) ∧
      ((runUpload 3 (initUpload [0, 1, 2, 3, 4])).done = [0, 1, 2, 3, 4] ∧
        (runUpload 3 (initUpload [0, 1, 2, 3, 4])).maxObserved = 2 ∧
        (runUpload 3 (initUpload [0, 1, 2, 3, 4])).inFlight = []) := by
  refine ⟨?_, ?_, by decide⟩
  · intro segs n
    have hinit : initUpload segs = ⟨segs, [], [], 0⟩ := rfl
    have hlim : uploadConcurrencyLimit = 2 := rfl
    obtain ⟨-, -, h3, h4⟩ := runUpload_spec n segs [] 0
    constructor
    · rw [hlim, hinit]
      omega
    · rw [hlim, hinit, h3]
      simp
  · intro segs
    have hinit : initUpload segs = ⟨segs, [], [], 0⟩ := rfl
    obtain ⟨h1, h2, -, -⟩ := runUpload_spec segs.length segs [] 0
    have e2 : List.take (2 * segs.length) segs = segs := List.take_of_length_le (by omega)
    have e1 : List.drop (2 * segs.length) segs = [] := List.drop_eq_nil_of_le (by omega)
    constructor
    · rw [hinit, h2, e2, List.nil_append]
    · rw [hinit, h1, e1]
